import Mathlib

set_option maxRecDepth 10000

/-!
# Verification of the Parseon finding-extraction-and-validation pipeline

A shallow embedding of the core pipeline of the Parseon repository:

* `backend/app/core/base_model_analyzer.py` — response parsing
  (`_parse_findings`) and taxonomy normalization (`_normalize_category`,
  `_normalize_severity`);
* `backend/app/core/finding_validator.py` — the precise-mode confidence
  adjustment (`_update_finding_confidence`);
* `backend/app/services/assessment_service.py` — deduplication
  (`_deduplicate_findings`), scoring (`_calculate_category_scores`,
  `_calculate_weighted_score`, `_calculate_risk_level`) and the
  environment-variable API-key false-positive filter in `analyze_input`.

Python strings are modelled as Lean `String`s (case mapping is modelled on
the ASCII range, which is what Lean's own `Char` case functions implement
and what every constant appearing in the source uses), Python floats as
`Rat`, raised-and-caught exceptions as `Except Unit` values, and
`json.loads` as an executable recursive-descent JSON reader `jsonLoads`.
All definitions are executable, so concrete witnesses evaluate by `decide`.
-/

namespace Parseon

/-! ## Character and string utilities (Python `str.lower`, `str.upper`,
`str.strip`, substring containment `in`, splitting) -/

/-- ASCII lower-casing of a character, as Python's `str.lower` acts on the
ASCII range (and as Lean's own `Char.toLower` is defined). -/
def charLower (c : Char) : Char :=
  if 65 ≤ c.toNat ∧ c.toNat ≤ 90 then Char.ofNat (c.toNat + 32) else c

/-- ASCII upper-casing of a character, as Python's `str.upper` acts on the
ASCII range. -/
def charUpper (c : Char) : Char :=
  if 97 ≤ c.toNat ∧ c.toNat ≤ 122 then Char.ofNat (c.toNat - 32) else c

/-- Python `s.lower()`. -/
def pyLower (s : String) : String := ⟨s.data.map charLower⟩

/-- Python `s.upper()`. -/
def pyUpper (s : String) : String := ⟨s.data.map charUpper⟩

/-- Python whitespace (the characters stripped by `str.strip` and matched
by the regex class `\s`). -/
def isPyWs (c : Char) : Bool :=
  c = ' ' || c = '\t' || c = '\n' || c = '\r' || c = '\x0b' || c = '\x0c'

/-- Python `s.strip()` on a character list. -/
def pyStripList (l : List Char) : List Char :=
  ((l.dropWhile isPyWs).reverse.dropWhile isPyWs).reverse

/-- Python `s.strip()`. -/
def pyStrip (s : String) : String := ⟨pyStripList s.data⟩

/-- Test whether `needle` occurs as a contiguous sublist of `haystack`
(Python `needle in haystack` on strings). -/
def containsList (haystack needle : List Char) : Bool :=
  match haystack with
  | [] => needle.isEmpty
  | _ :: t => needle.isPrefixOf haystack || containsList t needle

/-- Python `needle in haystack` for strings. -/
def strContains (haystack needle : String) : Bool :=
  containsList haystack.data needle.data

/-- Python `s.split(sep)` for a single-character separator, on lists. -/
def splitCharList (sep : Char) (l : List Char) : List (List Char) :=
  match l with
  | [] => [[]]
  | c :: t =>
    let rest := splitCharList sep t
    if c = sep then [] :: rest
    else
      match rest with
      | [] => [[c]]
      | piece :: more => (c :: piece) :: more

/-- Python `s.split(sep)` for a single-character separator. -/
def splitChar (sep : Char) (s : String) : List String :=
  (splitCharList sep s.data).map (fun l => ⟨l⟩)

/-- The part of `s` after the first occurrence of `sep`, or all of `s` when
`sep` does not occur (Python `s.split(sep, 1)[-1]`). -/
def tailAfterFirst (sep : Char) (s : String) : String :=
  match splitChar sep s with
  | [] => s
  | [whole] => whole
  | _ :: rest => ⟨(String.intercalate ⟨[sep]⟩ rest).data⟩

/-- Python `s[:n]` (slicing by characters). -/
def pyTake (n : Nat) (s : String) : String := ⟨s.data.take n⟩

/-! ### Lemmas about the string utilities -/

theorem charToNat_ofNat (n : Nat) (h : n < 55296) : (Char.ofNat n).toNat = n := by
  have hv : n.isValidChar := Or.inl h
  simp only [Char.ofNat, dif_pos hv, Char.ofNatAux, Char.toNat, UInt32.toNat,
    BitVec.toNat_ofNatLt]

theorem charLower_charUpper (c : Char) : charLower (charUpper c) = charLower c := by
  unfold charUpper charLower
  by_cases h : 97 ≤ c.toNat ∧ c.toNat ≤ 122
  · rw [if_pos h]
    have h1 : (Char.ofNat (c.toNat - 32)).toNat = c.toNat - 32 :=
      charToNat_ofNat _ (by omega)
    rw [h1, if_pos (by omega), if_neg (by omega)]
    have h2 : c.toNat - 32 + 32 = c.toNat := by omega
    rw [h2, Char.ofNat_toNat]
  · rw [if_neg h]

/-- Lemma: `pyLower` only looks at `pyUpper`'s output through `charLower`, so
lower-casing after upper-casing equals lower-casing directly. -/
theorem pyLower_pyUpper (s : String) : pyLower (pyUpper s) = pyLower s := by
  unfold pyLower pyUpper
  rw [List.map_map]
  have : charLower ∘ charUpper = charLower := by
    funext c; exact charLower_charUpper c
  rw [this]

theorem isPrefixOf_iff_append {n l : List Char} :
    n.isPrefixOf l = true ↔ ∃ t, l = n ++ t := by
  induction n generalizing l with
  | nil => simp [List.isPrefixOf]
  | cons c n ih =>
    cases l with
    | nil => simp [List.isPrefixOf]
    | cons d t =>
      simp only [List.isPrefixOf, Bool.and_eq_true, beq_iff_eq, ih, List.cons_append,
        List.cons.injEq]
      constructor
      · rintro ⟨rfl, u, rfl⟩; exact ⟨u, rfl, rfl⟩
      · rintro ⟨u, rfl, rfl⟩; exact ⟨rfl, u, rfl⟩

theorem containsList_iff {l n : List Char} :
    containsList l n = true ↔ ∃ a b, l = a ++ n ++ b := by
  induction l with
  | nil =>
    simp only [containsList, List.isEmpty_iff]
    constructor
    · rintro rfl; exact ⟨[], [], rfl⟩
    · rintro ⟨a, b, h⟩
      rcases List.append_eq_nil.mp (List.append_eq_nil.mp h.symm).1 with ⟨_, h2⟩
      exact h2
  | cons c t ih =>
    simp only [containsList, Bool.or_eq_true, isPrefixOf_iff_append, ih]
    constructor
    · rintro (⟨u, h⟩ | ⟨a, b, h⟩)
      · exact ⟨[], u, by simp [h]⟩
      · exact ⟨c :: a, b, by simp [h]⟩
    · rintro ⟨a, b, h⟩
      cases a with
      | nil => exact Or.inl ⟨b, by simpa using h⟩
      | cons a0 a' =>
        right
        simp only [List.cons_append, List.cons.injEq] at h
        exact ⟨a', b, h.2⟩

theorem strContains_iff {s n : String} :
    strContains s n = true ↔ ∃ a b, s.data = a ++ n.data ++ b :=
  containsList_iff

/-- Substring containment is transitive through a fixed middle string:
if `m` occurs in `s` and `n` occurs in `m` then `n` occurs in `s`. -/
theorem strContains_trans {s m n : String} (h1 : strContains s m = true)
    (h2 : strContains m n = true) : strContains s n = true := by
  rw [strContains_iff] at h1 h2 ⊢
  obtain ⟨a, b, hab⟩ := h1
  obtain ⟨x, y, hxy⟩ := h2
  exact ⟨a ++ x, y ++ b, by simp [hab, hxy]⟩

theorem strContains_self (s : String) : strContains s s = true := by
  rw [strContains_iff]; exact ⟨[], [], by simp⟩

/-- If `pyUpper s = u` then `pyLower s = pyLower u`; used to relate the
`upper()`-membership tests of the normalizers to case-insensitive
substring hypotheses phrased with `lower()`. -/
theorem pyLower_eq_of_pyUpper_eq {s u : String} (h : pyUpper s = u) :
    pyLower s = pyLower u := by
  rw [← h, pyLower_pyUpper]

/-! ## Closed taxonomies (`backend/app/schemas/assessment.py`)

`RiskLevel` and `SecurityCategory` are string enums; `VulnerabilityFinding`
stores `severity` and `category` as plain strings, so the enums are
modelled as the lists of their string values. -/

/-- The values of the `RiskLevel` enum. -/
def riskLevelValues : List String := ["CRITICAL", "HIGH", "MEDIUM", "LOW"]

/-- The values of the `SecurityCategory` enum, in declaration order. -/
def securityCategoryValues : List String :=
  ["API_SECURITY", "PROMPT_SECURITY", "CONFIGURATION", "ERROR_HANDLING",
   "DATA_SECURITY", "MODEL_SECURITY", "GENERAL_SECURITY"]

/-- The `validation_info` dictionary attached by `FindingValidator`.
Both the precise and the fast mode populate exactly these four keys. -/
structure ValidationInfo where
  validation_score : Rat
  similar_vulnerability : Option String
  validated : Bool
  confidence_adjustment : String
deriving Repr, DecidableEq

/-- The `VulnerabilityFinding` pydantic model. `severity` and `category` are
plain `str` fields in the source; only `confidence` carries the range
constraint `ge=0.0, le=1.0`, enforced at construction (see
`pydanticFinding` below). -/
structure VulnerabilityFinding where
  id : String
  title : String
  description : String
  severity : String
  category : String
  code_snippets : List String
  recommendation : String
  confidence : Rat
  validation_info : Option ValidationInfo := none
deriving Repr, DecidableEq

/-! ## Category/severity normalization
(`BaseModelAnalyzer._normalize_category`, `_normalize_severity`) -/

/-- The four canonical category strings checked by `_normalize_category`. -/
def canonicalCategories : List String :=
  ["API_SECURITY", "PROMPT_SECURITY", "CONFIGURATION", "ERROR_HANDLING"]

/-- The `category_map` of `_normalize_category`, in insertion order. -/
def categoryMap : List (String × String) :=
  [("api", "API_SECURITY"),
   ("api_security", "API_SECURITY"),
   ("api security", "API_SECURITY"),
   ("prompt", "PROMPT_SECURITY"),
   ("prompt_security", "PROMPT_SECURITY"),
   ("prompt security", "PROMPT_SECURITY"),
   ("prompt injection", "PROMPT_SECURITY"),
   ("config", "CONFIGURATION"),
   ("configuration", "CONFIGURATION"),
   ("setting", "CONFIGURATION"),
   ("settings", "CONFIGURATION"),
   ("error", "ERROR_HANDLING"),
   ("error_handling", "ERROR_HANDLING"),
   ("error handling", "ERROR_HANDLING"),
   ("exception", "ERROR_HANDLING"),
   ("exception_handling", "ERROR_HANDLING"),
   ("exception handling", "ERROR_HANDLING")]

/-- Model of `BaseModelAnalyzer._normalize_category`: return `category.upper()` when
already canonical, else the first synonym-table entry whose key occurs in
`category.lower()`, else `"API_SECURITY"`. -/
def normalizeCategory (category : String) : String :=
  if canonicalCategories.contains (pyUpper category) then pyUpper category
  else
    match categoryMap.find? (fun kv => strContains (pyLower category) kv.1) with
    | some kv => kv.2
    | none => "API_SECURITY"

/-- The `severity_map` of `_normalize_severity`, in insertion order. -/
def severityMap : List (String × String) :=
  [("critical", "CRITICAL"),
   ("high", "HIGH"),
   ("medium", "MEDIUM"),
   ("low", "LOW"),
   ("info", "LOW"),
   ("informational", "LOW"),
   ("warning", "MEDIUM"),
   ("severe", "HIGH")]

/-- Model of `BaseModelAnalyzer._normalize_severity`: return `severity.upper()` when
already canonical, else the first map entry whose key occurs in
`severity.lower()`, else `"MEDIUM"`. -/
def normalizeSeverity (severity : String) : String :=
  if riskLevelValues.contains (pyUpper severity) then pyUpper severity
  else
    match severityMap.find? (fun kv => strContains (pyLower severity) kv.1) with
    | some kv => kv.2
    | none => "MEDIUM"

/-! ### Totality/closedness of the normalizers -/

theorem normalizeCategory_mem (s : String) :
    normalizeCategory s ∈ canonicalCategories := by
  unfold normalizeCategory
  split
  · next h => exact (List.elem_iff).mp h
  · split
    · next kv h =>
      have hmem := List.mem_of_find?_eq_some h
      have : ∀ kv ∈ categoryMap, kv.2 ∈ canonicalCategories := by decide
      exact this kv hmem
    · decide

theorem normalizeSeverity_mem (s : String) :
    normalizeSeverity s ∈ riskLevelValues := by
  unfold normalizeSeverity
  split
  · next h => exact (List.elem_iff).mp h
  · split
    · next kv h =>
      have hmem := List.mem_of_find?_eq_some h
      have : ∀ kv ∈ severityMap, kv.2 ∈ riskLevelValues := by decide
      exact this kv hmem
    · decide

/-- The canonical categories are a subset of the `SecurityCategory` enum. -/
theorem normalizeCategory_mem_enum (s : String) :
    normalizeCategory s ∈ securityCategoryValues := by
  have h := normalizeCategory_mem s
  have : ∀ c ∈ canonicalCategories, c ∈ securityCategoryValues := by decide
  exact this _ h

/-- The seven severity keywords named by the specification. -/
def severityKeywords : List String :=
  ["critical", "high", "medium", "low", "info", "warning", "severe"]

/-- If none of the seven severity keywords occurs case-insensitively in
`s`, `_normalize_severity` returns its default `"MEDIUM"`. -/
theorem normalizeSeverity_default (s : String)
    (h : ∀ k ∈ severityKeywords, strContains (pyLower s) k = false) :
    normalizeSeverity s = "MEDIUM" := by
  unfold normalizeSeverity
  split
  · next hc =>
    exfalso
    have hmem : pyUpper s ∈ riskLevelValues := (List.elem_iff).mp hc
    have cover : ∀ u ∈ riskLevelValues, ∃ k ∈ severityKeywords,
        strContains (pyLower u) k = true := by decide
    obtain ⟨k, hk, hsub⟩ := cover _ hmem
    rw [pyLower_pyUpper] at hsub
    rw [h k hk] at hsub
    exact Bool.false_ne_true hsub
  · split
    · next kv hfind =>
      exfalso
      have hpred := List.find?_some hfind
      have hmem := List.mem_of_find?_eq_some hfind
      have cover : ∀ kv ∈ severityMap, ∃ k ∈ severityKeywords,
          strContains kv.1 k = true := by decide
      obtain ⟨k, hk, hsub⟩ := cover kv hmem
      have := strContains_trans hpred hsub
      rw [h k hk] at this
      exact Bool.false_ne_true this
    · rfl

/-- If no synonym-table key occurs case-insensitively in `s`,
`_normalize_category` returns its default `"API_SECURITY"`. -/
theorem normalizeCategory_default (s : String)
    (h : ∀ kv ∈ categoryMap, strContains (pyLower s) kv.1 = false) :
    normalizeCategory s = "API_SECURITY" := by
  unfold normalizeCategory
  split
  · next hc =>
    exfalso
    have hmem : pyUpper s ∈ canonicalCategories := (List.elem_iff).mp hc
    have cover : ∀ u ∈ canonicalCategories, ∃ kv ∈ categoryMap,
        strContains (pyLower u) kv.1 = true := by decide
    obtain ⟨kv, hkv, hsub⟩ := cover _ hmem
    rw [pyLower_pyUpper] at hsub
    rw [h kv hkv] at hsub
    exact Bool.false_ne_true hsub
  · split
    · next kv hfind =>
      exfalso
      have hpred := List.find?_some hfind
      have hmem := List.mem_of_find?_eq_some hfind
      rw [h kv hmem] at hpred
      exact Bool.false_ne_true hpred
    · rfl

/-! ## JSON values and `json.loads`

`_parse_findings` decodes its input with Python's `json.loads`; this is the
executable embedding of that decoder (objects keep their key/value pairs in
source order; duplicate keys resolve to the last occurrence, as in Python,
via `jsonGet`). -/

/-- A decoded JSON value (Python's `json.loads` result). -/
inductive Json where
  | null
  | bool (b : Bool)
  | num (q : Rat)
  | str (s : String)
  | arr (items : List Json)
  | obj (fields : List (String × Json))

/-- JSON inter-token whitespace. -/
def skipJsonWs : List Char → List Char
  | [] => []
  | c :: rest =>
    if c = ' ' ∨ c = '\t' ∨ c = '\n' ∨ c = '\r' then skipJsonWs rest else c :: rest

/-- One hexadecimal digit. -/
def hexVal (c : Char) : Option Nat :=
  if 48 ≤ c.toNat ∧ c.toNat ≤ 57 then some (c.toNat - 48)
  else if 97 ≤ c.toNat ∧ c.toNat ≤ 102 then some (c.toNat - 87)
  else if 65 ≤ c.toNat ∧ c.toNat ≤ 70 then some (c.toNat - 55)
  else none

/-- Body of a JSON string literal (after the opening quote): unescapes the
standard escapes, rejects raw control characters, stops at the closing
quote. -/
def parseJsonStringAux (acc : List Char) : List Char → Option (String × List Char)
  | [] => none
  | '"' :: rest => some (⟨acc.reverse⟩, rest)
  | '\\' :: esc =>
    match esc with
    | '"' :: r => parseJsonStringAux ('"' :: acc) r
    | '\\' :: r => parseJsonStringAux ('\\' :: acc) r
    | '/' :: r => parseJsonStringAux ('/' :: acc) r
    | 'b' :: r => parseJsonStringAux ('\x08' :: acc) r
    | 'f' :: r => parseJsonStringAux ('\x0c' :: acc) r
    | 'n' :: r => parseJsonStringAux ('\n' :: acc) r
    | 'r' :: r => parseJsonStringAux ('\r' :: acc) r
    | 't' :: r => parseJsonStringAux ('\t' :: acc) r
    | 'u' :: h1 :: h2 :: h3 :: h4 :: r =>
      match hexVal h1, hexVal h2, hexVal h3, hexVal h4 with
      | some a, some b, some c, some d =>
        parseJsonStringAux (Char.ofNat (((a * 16 + b) * 16 + c) * 16 + d) :: acc) r
      | _, _, _, _ => none
    | _ => none
  | c :: rest => if c.toNat < 32 then none else parseJsonStringAux (c :: acc) rest

/-- The numeric value of a digit string. -/
def digitsToNat (ds : List Char) : Nat :=
  ds.foldl (fun acc c => acc * 10 + (c.toNat - 48)) 0

/-- Assemble a JSON number from its parts. -/
def mkJsonNum (neg : Bool) (intDigits fracDigits : List Char) (e : Nat)
    (eneg : Bool) : Rat :=
  let m : Rat := (digitsToNat (intDigits ++ fracDigits) : Nat)
  let base := m / ((10 : Rat) ^ fracDigits.length)
  let withExp := if eneg then base / ((10 : Rat) ^ e) else base * ((10 : Rat) ^ e)
  if neg then -withExp else withExp

/-- The optional exponent suffix of a JSON number. -/
def parseJsonExp (neg : Bool) (intDigits fracDigits : List Char) :
    List Char → Option (Json × List Char) := fun l =>
  let p := match l with
    | '+' :: r => (false, r)
    | '-' :: r => (true, r)
    | _ => (false, l)
  let eDigits := p.2.takeWhile Char.isDigit
  if eDigits.isEmpty then none
  else some (.num (mkJsonNum neg intDigits fracDigits (digitsToNat eDigits) p.1),
    p.2.drop eDigits.length)

/-- Number continuation after mantissa digits. -/
def finishJsonNum (neg : Bool) (intDigits fracDigits : List Char) :
    List Char → Option (Json × List Char)
  | 'e' :: r => parseJsonExp neg intDigits fracDigits r
  | 'E' :: r => parseJsonExp neg intDigits fracDigits r
  | l => some (.num (mkJsonNum neg intDigits fracDigits 0 false), l)

/-- A JSON number literal (grammar `-?(0|[1-9][0-9]*)(\.[0-9]+)?([eE][+-]?[0-9]+)?`). -/
def parseJsonNum (l : List Char) : Option (Json × List Char) :=
  let p := match l with
    | '-' :: r => (true, r)
    | _ => (false, l)
  let intDigits := p.2.takeWhile Char.isDigit
  if intDigits.isEmpty then none
  else if 1 < intDigits.length ∧ intDigits.head? = some '0' then none
  else
    let l2 := p.2.drop intDigits.length
    match l2 with
    | '.' :: r =>
      let fracDigits := r.takeWhile Char.isDigit
      if fracDigits.isEmpty then none
      else finishJsonNum p.1 intDigits fracDigits (r.drop fracDigits.length)
    | _ => finishJsonNum p.1 intDigits [] l2

mutual

/-- A JSON value (fuel-indexed recursive descent). -/
def parseJsonVal : Nat → List Char → Option (Json × List Char)
  | 0, _ => none
  | fuel + 1, l =>
    match skipJsonWs l with
    | 'n' :: 'u' :: 'l' :: 'l' :: rest => some (.null, rest)
    | 't' :: 'r' :: 'u' :: 'e' :: rest => some (.bool true, rest)
    | 'f' :: 'a' :: 'l' :: 's' :: 'e' :: rest => some (.bool false, rest)
    | '"' :: rest => (parseJsonStringAux [] rest).map (fun p => (.str p.1, p.2))
    | '[' :: rest =>
      match skipJsonWs rest with
      | ']' :: r2 => some (.arr [], r2)
      | r2 => (parseJsonItems fuel r2).map (fun p => (.arr p.1, p.2))
    | '{' :: rest =>
      match skipJsonWs rest with
      | '}' :: r2 => some (.obj [], r2)
      | r2 => (parseJsonFields fuel r2).map (fun p => (.obj p.1, p.2))
    | l2 => parseJsonNum l2

/-- Comma-separated array items up to the closing bracket. -/
def parseJsonItems : Nat → List Char → Option (List Json × List Char)
  | 0, _ => none
  | fuel + 1, l =>
    match parseJsonVal fuel l with
    | none => none
    | some (v, rest) =>
      match skipJsonWs rest with
      | ',' :: r2 =>
        match parseJsonItems fuel r2 with
        | some (vs, r3) => some (v :: vs, r3)
        | none => none
      | ']' :: r2 => some ([v], r2)
      | _ => none

/-- Comma-separated object members up to the closing brace. -/
def parseJsonFields : Nat → List Char → Option (List (String × Json) × List Char)
  | 0, _ => none
  | fuel + 1, l =>
    match skipJsonWs l with
    | '"' :: rest =>
      match parseJsonStringAux [] rest with
      | none => none
      | some (k, r1) =>
        match skipJsonWs r1 with
        | ':' :: r2 =>
          match parseJsonVal fuel r2 with
          | none => none
          | some (v, r3) =>
            match skipJsonWs r3 with
            | ',' :: r4 =>
              match parseJsonFields fuel r4 with
              | some (fs, r5) => some ((k, v) :: fs, r5)
              | none => none
            | '}' :: r4 => some ([(k, v)], r4)
            | _ => none
        | _ => none
    | _ => none

end

/-- Python's `json.loads`: decode one value, allow surrounding whitespace,
reject trailing garbage; `none` models a raised `json.JSONDecodeError`. -/
def jsonLoads (t : String) : Option Json :=
  match parseJsonVal (2 * t.length + 2) t.data with
  | some (j, rest) => if (skipJsonWs rest).isEmpty then some j else none
  | none => none

/-- Python `dict.get(key)` on a decoded JSON object (duplicate keys in the
source resolved to the last occurrence, as `json.loads` does). -/
def jsonGet (fields : List (String × Json)) (key : String) : Option Json :=
  (fields.reverse.find? (fun kv => kv.1 == key)).map (fun kv => kv.2)

example :
    jsonLoads "[\x7b\"title\": \"A\"\x7d]" =
      some (.arr [.obj [("title", .str "A")]]) := by rfl

example : jsonLoads "\x7b\"a\": [1, 2.5, -3e2, true, null]\x7d" =
    some (.obj [("a", .arr [.num 1, .num (5/2), .num (-300), .bool true, .null])]) := by
  with_unfolding_all rfl

example : jsonLoads "[1," = none := by rfl

/-! ## The fixed regular expressions of `_parse_findings`

Each regex in the source is a fixed literal pattern; each is embedded as a
dedicated scanner with the same matching semantics (`re.search` leftmost
match, greedy `\s*`/`\d+`, lazy `(.*?)`, `.` not crossing newlines unless
the source sets `re.DOTALL`). -/

/-- After the wildcard `.*` (which cannot cross a newline), does the
literal `post` occur before the end of the current line? -/
def wildThenLit (post : List Char) : List Char → Bool
  | [] => post.isEmpty
  | c :: rest => post.isPrefixOf (c :: rest) || (c ≠ '\n' && wildThenLit post rest)

/-- Model of `re.search` of the single-line pattern `pre.*post` (both parts
literal): some position starts with `pre`, and `post` follows on the same
line. -/
def searchPrePost (pre post : List Char) : List Char → Bool
  | [] => pre.isEmpty && wildThenLit post []
  | l@(_ :: t) =>
    (pre.isPrefixOf l && wildThenLit post (l.drop pre.length)) || searchPrePost pre post t

/-- The `no_findings_patterns` check at the top of `_parse_findings`: any
of the six patterns matching (case-insensitively) short-circuits the
parser to an empty result. -/
def noFindingsIndicated (t : String) : Bool :=
  let lt := (pyLower t).data
  searchPrePost "no ".data "vulnerabilities".data lt ||
  searchPrePost "no ".data "security issues".data lt ||
  searchPrePost "no ".data "found".data lt ||
  containsList lt "properly handles security".data ||
  containsList lt "secure implementation".data ||
  searchPrePost "no ".data " detected".data lt

/-- Model of `re.search(r'(\[.*\])', text, re.DOTALL)`: the leftmost match runs from
the first `[` to the last `]` (greedy `.*` with DOTALL), provided the last
`]` lies after the first `[`. -/
def bracketExtract (t : String) : Option String :=
  match t.data.findIdx? (fun c => c = '[') with
  | none => none
  | some i =>
    match t.data.reverse.findIdx? (fun c => c = ']') with
    | none => none
    | some rj =>
      let j := t.data.length - 1 - rj
      if i < j then some ⟨(t.data.drop i).take (j - i + 1)⟩ else none

/-- Matcher for the tail of `\n\s*\d+\.\s` (the part after the newline):
maximal whitespace run, at least one digit, a dot, one whitespace
character; returns the remainder after the match. Backtracking cannot
produce any other split because whitespace and digits are disjoint. -/
def matchNumDot (l : List Char) : Option (List Char) :=
  let l1 := l.dropWhile isPyWs
  let digits := l1.takeWhile Char.isDigit
  if digits.isEmpty then none
  else
    match l1.drop digits.length with
    | '.' :: c :: rest => if isPyWs c then some rest else none
    | _ => none

/-- Model of `re.split(r'\n\s*\d+\.\s', text)`: scan left to right, splitting at
every (non-overlapping) match. -/
def resplitAux : Nat → List Char → List Char → List (List Char)
  | _, [], cur => [cur.reverse]
  | 0, l, cur => [cur.reverse ++ l]
  | fuel + 1, c :: rest, cur =>
    if c = '\n' then
      match matchNumDot rest with
      | some rest2 => cur.reverse :: resplitAux fuel rest2 []
      | none => resplitAux fuel rest ('\n' :: cur)
    else resplitAux fuel rest (c :: cur)

/-- Model of `re.split(r'\n\s*\d+\.\s', t)`. -/
def resplit (t : String) : List String :=
  (resplitAux t.length t.data []).map (fun l => ⟨l⟩)

/-- The lazy body of `\*\*(.*?)\*\*` from one candidate start: shortest
non-newline span up to a closing `**`. -/
def closeBold : List Char → Option (List Char)
  | '*' :: '*' :: _ => some []
  | c :: rest => if c = '\n' then none else (closeBold rest).map (fun l => c :: l)
  | [] => none

/-- Model of `re.search(r'\*\*(.*?)\*\*', s)`: leftmost `**` with a same-line
closing `**`; returns the captured group. -/
def findBoldAux : List Char → Option (List Char)
  | [] => none
  | c :: rest =>
    if c = '*' && "*".data.isPrefixOf rest then
      match closeBold (rest.drop 1) with
      | some cap => some cap
      | none => findBoldAux rest
    else findBoldAux rest

/-- The captured group of `re.search(r'\*\*(.*?)\*\*', s)`. -/
def findBold (s : String) : Option String :=
  (findBoldAux s.data).map (fun l => ⟨l⟩)

/-- Index of the leftmost occurrence of the literal `pat` in `hay`. -/
def findLitIdx (hay pat : List Char) : Option Nat :=
  if pat.isPrefixOf hay then some 0
  else
    match hay with
    | [] => none
    | _ :: t => (findLitIdx t pat).map (fun n => n + 1)

/-- The lazy capture of `(.*?)(?:\n\s*\*\*|\Z)` (with DOTALL): everything
up to the first newline that is followed, after optional whitespace, by
`**`; or up to the end of input. -/
def labelTermScan : List Char → List Char
  | [] => []
  | c :: rest =>
    if c = '\n' && "**".data.isPrefixOf (rest.dropWhile isPyWs) then []
    else c :: labelTermScan rest

/-- Model of `re.search(r'\*\*Label\*\*:\s*(.*?)(?:\n\s*\*\*|\Z)', sec,
re.DOTALL | re.IGNORECASE)` followed by `.strip()` of the group, for the
labelled-field patterns of the numbered-list strategy. `label` is given in
lower case; the case-insensitive search lowers the haystack. -/
def findLabel (sec : String) (label : String) : Option String :=
  let pat := ("**" ++ label ++ "**:").data
  match findLitIdx (sec.data.map charLower) pat with
  | none => none
  | some idx =>
    let after := (sec.data.drop (idx + pat.length)).dropWhile isPyWs
    some ⟨pyStripList (labelTermScan after)⟩

/-- The lazy capture of `(.*?)\s*` before the closing fence: everything up
to the first position from which optional whitespace reaches a closing
fence. -/
def fenceCapture : List Char → Option (List Char)
  | [] => none
  | l@(c :: rest) =>
    if "```".data.isPrefixOf (l.dropWhile isPyWs) then some []
    else (fenceCapture rest).map (fun k => c :: k)

/-- Model of `re.search(r'```(?:python)?\s*(.*?)\s*```', sec, re.DOTALL)`: leftmost
opening fence with a closing fence somewhere after it; the optional
`python` tag and surrounding whitespace are not captured. -/
def findFenceAux : List Char → Option (List Char)
  | [] => none
  | l@(_ :: rest) =>
    if "```".data.isPrefixOf l then
      let after := l.drop 3
      let after2 := if "python".data.isPrefixOf after then after.drop 6 else after
      match fenceCapture (after2.dropWhile isPyWs) with
      | some cap => some cap
      | none => findFenceAux rest
    else findFenceAux rest

/-- The captured group of the code-fence regex. -/
def findFence (s : String) : Option String :=
  (findFenceAux s.data).map (fun l => ⟨l⟩)

/-! ## `BaseModelAnalyzer._parse_findings`

The parser never raises: the JSON strategies run inside `try` blocks whose
handlers fall through to the next strategy, and a per-candidate failure
(modelled as `Except.error`, e.g. `float()` on a malformed confidence or a
pydantic validation error) aborts the candidate loop, keeping the
candidates accumulated so far. -/

/-- Python `float(x)` on a string: optional sign, decimal digits with
optional fraction and exponent. Other strings (including `nan`/`inf`,
which the pydantic `ge/le` bounds would reject anyway) raise, modelled as
`none`. -/
def pyFloatStringAux (neg : Bool) (ip fp : List Char) : List Char → Option Rat
  | [] => some (mkJsonNum neg ip fp 0 false)
  | c :: r =>
    if c = 'e' ∨ c = 'E' then
      let p := match r with
        | '+' :: r2 => (false, r2)
        | '-' :: r2 => (true, r2)
        | _ => (false, r)
      let ed := p.2.takeWhile Char.isDigit
      if ed.isEmpty ∨ ¬(p.2.drop ed.length).isEmpty then none
      else some (mkJsonNum neg ip fp (digitsToNat ed) p.1)
    else none

/-- Python `float(s)` for a string argument. -/
def pyFloatString (s : String) : Option Rat :=
  let l := pyStripList s.data
  let p := match l with
    | '-' :: r => (true, r)
    | '+' :: r => (false, r)
    | _ => (false, l)
  let ip := p.2.takeWhile Char.isDigit
  let l2 := p.2.drop ip.length
  match l2 with
  | '.' :: r =>
    let fp := r.takeWhile Char.isDigit
    if ip.isEmpty ∧ fp.isEmpty then none
    else pyFloatStringAux p.1 ip fp (r.drop fp.length)
  | _ => if ip.isEmpty then none else pyFloatStringAux p.1 ip [] l2

/-- Model of `float(finding_data.get("confidence", 0.5))`: absent means the 0.5
default; JSON numbers pass through; booleans coerce (`float(True)` is
1.0); numeric strings parse; anything else raises (`Except.error`). -/
def pyFloatOfJson : Option Json → Except Unit Rat
  | none => .ok (1/2)
  | some (.num q) => .ok q
  | some (.bool b) => .ok (if b then 1 else 0)
  | some (.str s) =>
    match pyFloatString s with
    | some q => .ok q
    | none => .error ()
  | some _ => .error ()

/-- A JSON field destined for a `str` slot: absent means the default;
a JSON string passes through; any other value raises — either at
`.upper()`/`.lower()` inside the normalizers (`AttributeError`) or at
pydantic validation of the `str` field. -/
def pyStrField (v : Option Json) (dflt : String) : Except Unit String :=
  match v with
  | none => .ok dflt
  | some (.str s) => .ok s
  | some _ => .error ()

/-- Construction of `VulnerabilityFinding(...)`: pydantic enforces
`confidence` in `[0, 1]` (`ge=0.0, le=1.0`); a violation raises
`ValidationError`, modelled as `Except.error`. -/
def pydanticFinding (id title description severity category : String)
    (code_snippets : List String) (recommendation : String) (confidence : Rat)
    (validation_info : Option ValidationInfo) : Except Unit VulnerabilityFinding :=
  if 0 ≤ confidence ∧ confidence ≤ 1 then
    .ok ⟨id, title, description, severity, category, code_snippets,
      recommendation, confidence, validation_info⟩
  else .error ()

/-- One iteration of the JSON-strategy loop of `_parse_findings`
(`for i, finding_data in enumerate(data)`), for the `i`-th array element:
normalize category and severity (raising on non-string values), coerce the
confidence with `float(...)`, and construct the pydantic model. -/
def extractCandidateJson (fd : Json) (i : Nat) : Except Unit VulnerabilityFinding :=
  match fd with
  | .obj flds =>
    match pyStrField (jsonGet flds "category") "CONFIGURATION" with
    | .error e => .error e
    | .ok rawCat =>
      match pyStrField (jsonGet flds "severity") "MEDIUM" with
      | .error e => .error e
      | .ok rawSev =>
        match pyFloatOfJson (jsonGet flds "confidence") with
        | .error e => .error e
        | .ok confidence =>
          match pyStrField (jsonGet flds "title") "Unnamed Finding" with
          | .error e => .error e
          | .ok title =>
            match pyStrField (jsonGet flds "description") "No description provided" with
            | .error e => .error e
            | .ok description =>
              match pyStrField (jsonGet flds "code_snippet") "No code snippet provided" with
              | .error e => .error e
              | .ok snippet =>
                match pyStrField (jsonGet flds "recommendation") "No recommendation provided" with
                | .error e => .error e
                | .ok recommendation =>
                  pydanticFinding ("finding_" ++ toString (i + 1)) title description
                    (normalizeSeverity rawSev) (normalizeCategory rawCat)
                    [snippet] recommendation confidence none
  | _ => .error ()

/-- The JSON-strategy candidate loop: appends successfully extracted
findings; the first failing candidate raises, which the outer handler
catches — the Boolean records whether the loop ran to completion. -/
def jsonLoopCore : List Json → Nat → List VulnerabilityFinding →
    List VulnerabilityFinding × Bool
  | [], _, acc => (acc, true)
  | fd :: rest, i, acc =>
    match extractCandidateJson fd i with
    | .ok f => jsonLoopCore rest (i + 1) (acc ++ [f])
    | .error _ => (acc, false)

/-- The JSON-strategy loop started on a fresh findings list. -/
def jsonLoop (items : List Json) : List VulnerabilityFinding × Bool :=
  jsonLoopCore items 0 []

/-- Specification helper: extraction of every array element, `none` when
any element fails. -/
def extractAll : List Json → Nat → Option (List VulnerabilityFinding)
  | [], _ => some []
  | fd :: rest, i =>
    match extractCandidateJson fd i with
    | .ok f => (extractAll rest (i + 1)).map (fun fs => f :: fs)
    | .error _ => none

/-- One numbered section of the numbered-list strategy (`for i, section in
enumerate(sections)`): strip, skip when empty, extract title (first bold
span), labelled fields and code fence, normalize, fixed confidence 0.8. -/
def processSection (i : Nat) (sec : String) : Option VulnerabilityFinding :=
  let s := pyStrip sec
  if s.data.isEmpty then none
  else
    some
      { id := "finding_" ++ toString (i + 1)
        title := (findBold s).getD ("Finding " ++ toString (i + 1))
        description := (findLabel s "description").getD (pyTake 200 s)
        severity := normalizeSeverity ((findLabel s "severity").getD "MEDIUM")
        category := normalizeCategory ((findLabel s "category").getD "PROMPT_SECURITY")
        code_snippets := [(findFence s).getD "No code snippet provided"]
        recommendation := (findLabel s "recommendation").getD "No recommendation provided"
        confidence := 4/5
        validation_info := none }

/-- The numbered-list strategy: guarded by `"1." in text` and
`"vulnerabilit" in text.lower()`; splits at `\n\s*\d+\.\s` (the
`re.findall` emptiness test is equivalent to the split producing more than
one piece), drops the intro piece, processes each section; returns early
exactly when it produced at least one finding. -/
def numberedPath (t : String) : List VulnerabilityFinding × Bool :=
  if strContains t "1." && strContains (pyLower t) "vulnerabilit" then
    let sections := resplit t
    if 1 < sections.length then
      let fs := (sections.drop 1).enum.filterMap (fun p => processSection p.1 p.2)
      (fs, !fs.isEmpty)
    else ([], false)
  else ([], false)

/-- The line-scan fallback accumulates `key: value` lines into the current
candidate dictionary; only the keys below are ever set. -/
structure CurFinding where
  title : Option String := none
  description : Option String := none
  severity : Option String := none
  category : Option String := none
  recommendation : Option String := none
  code_snippet : Option String := none

/-- Saving the current candidate in the line-scan fallback: only when a
title was captured and is non-empty (Python truthiness of
`current_finding.get("title")`); `n` is the number of findings already
accumulated (the id is `finding_{len(findings)+1}`), confidence fixed
0.6. -/
def flushCurFinding (cf : CurFinding) (n : Nat) : Option VulnerabilityFinding :=
  match cf.title with
  | some ttl =>
    if ttl.data.isEmpty then none
    else
      some
        { id := "finding_" ++ toString (n + 1)
          title := ttl
          description := cf.description.getD "No description provided"
          severity := normalizeSeverity (cf.severity.getD "MEDIUM")
          category := normalizeCategory (cf.category.getD "PROMPT_SECURITY")
          code_snippets := [cf.code_snippet.getD "No code snippet provided"]
          recommendation := cf.recommendation.getD "No recommendation provided"
          confidence := 3/5
          validation_info := none }
  | none => none

/-- Model of `re.match(r'^\d+\.', line)`: at least one digit then a dot, at the
start of the line. -/
def startsNumDot (line : String) : Bool :=
  let ds := line.data.takeWhile Char.isDigit
  match line.data.drop ds.length with
  | '.' :: _ => !ds.isEmpty
  | _ => false

/-- The line scanner of the aggressive fallback: a numbered or emphasized
line starts a new candidate (flushing the previous one); labelled
`key: value` lines fill the current candidate's fields. -/
def fallbackLoop : List String → CurFinding → Nat → List VulnerabilityFinding
  | [], cf, n => (flushCurFinding cf n).toList
  | line0 :: rest, cf, n =>
    let line := pyStrip line0
    if line.data.isEmpty then fallbackLoop rest cf n
    else if startsNumDot line || strContains line "**" then
      match flushCurFinding cf n with
      | some f =>
        f :: fallbackLoop rest { title := some (pyStrip (tailAfterFirst '.' line)) } (n + 1)
      | none => fallbackLoop rest { title := some (pyStrip (tailAfterFirst '.' line)) } n
    else if strContains (pyLower line) "description" && strContains line ":" then
      fallbackLoop rest { cf with description := some (pyStrip (tailAfterFirst ':' line)) } n
    else if strContains (pyLower line) "severity" && strContains line ":" then
      fallbackLoop rest { cf with severity := some (pyStrip (tailAfterFirst ':' line)) } n
    else if strContains (pyLower line) "category" && strContains line ":" then
      fallbackLoop rest { cf with category := some (pyStrip (tailAfterFirst ':' line)) } n
    else if strContains (pyLower line) "recommendation" && strContains line ":" then
      fallbackLoop rest
        { cf with recommendation := some (pyStrip (tailAfterFirst ':' line)) } n
    else if strContains (pyLower line) "code snippet" && strContains line ":" then
      fallbackLoop rest { cf with code_snippet := some (pyStrip (tailAfterFirst ':' line)) } n
    else fallbackLoop rest cf n

/-- The aggressive final fallback of `_parse_findings`, guarded by the
presence of "vulnerability" or "security issue" in the lowered text; `n0`
is the number of findings already accumulated when it starts. -/
def fallbackScan (t : String) (n0 : Nat) : List VulnerabilityFinding :=
  if strContains (pyLower t) "vulnerability" || strContains (pyLower t) "security issue" then
    fallbackLoop (splitChar '\n' t) {} n0
  else []

/-- The body of the outer `try` of `_parse_findings` after the no-findings
check: whole-text JSON (unwrapping a `findings` key), then regex-extracted
JSON, then the numbered-list strategy. The Boolean is true exactly when a
`return findings` statement inside the `try` executed; false means control
fell through (or an exception was caught) and the aggressive fallback
runs next. A successfully decoded extracted substring always starts with
`[`, so it can only be an array; the non-array case is dead code and maps
to the caught-exception path. -/
def parseMain (t : String) : List VulnerabilityFinding × Bool :=
  match jsonLoads t with
  | some d0 =>
    let d := match d0 with
      | .obj flds => (jsonGet flds "findings").getD (.obj flds)
      | _ => d0
    match d with
    | .arr items => jsonLoop items
    | _ => numberedPath t
  | none =>
    match bracketExtract t with
    | some sub =>
      match jsonLoads sub with
      | some (.arr items) =>
        let r := jsonLoop items
        if r.2 then (if r.1.isEmpty then numberedPath t else (r.1, true))
        else (r.1, false)
      | some _ => ([], false)
      | none => numberedPath t
    | none => numberedPath t

/-- Model of `BaseModelAnalyzer._parse_findings`. Total by construction: every
exception the source can raise is caught inside the function, so every
input string maps to a (finite) list of findings. -/
def parseFindings (t : String) : List VulnerabilityFinding :=
  if noFindingsIndicated t then []
  else
    let r := parseMain t
    if r.2 then r.1
    else r.1 ++ fallbackScan t r.1.length

/-! ## Well-formedness of every parsed finding (claim C1 groundwork) -/

/-- The invariant claimed for every finding the parser returns: confidence
in `[0, 1]`, severity and category in the closed enums. -/
def FindingWF (f : VulnerabilityFinding) : Prop :=
  0 ≤ f.confidence ∧ f.confidence ≤ 1 ∧
    f.severity ∈ riskLevelValues ∧ f.category ∈ securityCategoryValues

theorem extractCandidateJson_wf {fd : Json} {i : Nat} {f : VulnerabilityFinding}
    (h : extractCandidateJson fd i = .ok f) : FindingWF f := by
  unfold extractCandidateJson pydanticFinding at h
  repeat' split at h
  all_goals try exact Except.noConfusion h
  rename_i hc
  rw [Except.ok.injEq] at h
  subst h
  exact ⟨hc.1, hc.2, normalizeSeverity_mem _, normalizeCategory_mem_enum _⟩

theorem jsonLoopCore_wf {items : List Json} {i : Nat}
    {acc : List VulnerabilityFinding} (hacc : ∀ f ∈ acc, FindingWF f) :
    ∀ f ∈ (jsonLoopCore items i acc).1, FindingWF f := by
  induction items generalizing i acc with
  | nil => simpa [jsonLoopCore] using hacc
  | cons fd rest ih =>
    intro f hf
    unfold jsonLoopCore at hf
    split at hf
    · next g hg =>
      refine ih (fun f' hf' => ?_) f hf
      rcases List.mem_append.mp hf' with h' | h'
      · exact hacc f' h'
      · rw [List.mem_singleton.mp h']
        exact extractCandidateJson_wf hg
    · exact hacc f hf

theorem processSection_wf {i : Nat} {sec : String} {f : VulnerabilityFinding}
    (h : processSection i sec = some f) : FindingWF f := by
  simp only [processSection] at h
  split at h
  · exact Option.noConfusion h
  · rw [Option.some.injEq] at h
    subst h
    exact ⟨by norm_num, by norm_num, normalizeSeverity_mem _, normalizeCategory_mem_enum _⟩

theorem numberedPath_wf {t : String} :
    ∀ f ∈ (numberedPath t).1, FindingWF f := by
  intro f hf
  simp only [numberedPath] at hf
  split at hf
  · split at hf
    · simp only [List.mem_filterMap] at hf
      obtain ⟨p, _, hp⟩ := hf
      exact processSection_wf hp
    · simp at hf
  · simp at hf

theorem flushCurFinding_wf {cf : CurFinding} {n : Nat} {f : VulnerabilityFinding}
    (h : flushCurFinding cf n = some f) : FindingWF f := by
  unfold flushCurFinding at h
  split at h
  · split at h
    · exact Option.noConfusion h
    · rw [Option.some.injEq] at h
      subst h
      exact ⟨by norm_num, by norm_num, normalizeSeverity_mem _, normalizeCategory_mem_enum _⟩
  · exact Option.noConfusion h

theorem fallbackLoop_wf {lines : List String} {cf : CurFinding} {n : Nat} :
    ∀ f ∈ fallbackLoop lines cf n, FindingWF f := by
  induction lines generalizing cf n with
  | nil =>
    intro f hf
    unfold fallbackLoop at hf
    cases hflush : flushCurFinding cf n with
    | none => rw [hflush] at hf; simp at hf
    | some g =>
      rw [hflush] at hf
      simp only [Option.toList_some, List.mem_singleton] at hf
      rw [hf]; exact flushCurFinding_wf hflush
  | cons line0 rest ih =>
    intro f hf
    simp only [fallbackLoop] at hf
    split at hf
    · exact ih f hf
    · split at hf
      · split at hf
        · next g hg =>
          rcases List.mem_cons.mp hf with h' | h'
          · rw [h']; exact flushCurFinding_wf hg
          · exact ih f h'
        · exact ih f hf
      · split at hf
        · exact ih f hf
        · split at hf
          · exact ih f hf
          · split at hf
            · exact ih f hf
            · split at hf
              · exact ih f hf
              · split at hf
                · exact ih f hf
                · exact ih f hf

theorem fallbackScan_wf {t : String} {n0 : Nat} :
    ∀ f ∈ fallbackScan t n0, FindingWF f := by
  intro f hf
  unfold fallbackScan at hf
  split at hf
  · exact fallbackLoop_wf f hf
  · simp at hf

theorem parseMain_wf {t : String} : ∀ f ∈ (parseMain t).1, FindingWF f := by
  intro f hf
  simp only [parseMain] at hf
  split at hf
  · split at hf
    · exact jsonLoopCore_wf (by simp) f hf
    · exact numberedPath_wf f hf
  · split at hf
    · split at hf
      · split at hf
        · split at hf
          · exact numberedPath_wf f hf
          · exact jsonLoopCore_wf (by simp) f hf
        · exact jsonLoopCore_wf (by simp) f hf
      · simp at hf
      · exact numberedPath_wf f hf
    · exact numberedPath_wf f hf

theorem parseFindings_wf {t : String} : ∀ f ∈ parseFindings t, FindingWF f := by
  intro f hf
  simp only [parseFindings] at hf
  split at hf
  · simp at hf
  · split at hf
    · exact parseMain_wf f hf
    · rcases List.mem_append.mp hf with h' | h'
      · exact parseMain_wf f h'
      · exact fallbackScan_wf f h'

/-! ## `FindingValidator._update_finding_confidence` (precise mode)

Thresholds from `FindingValidator.__init__`:
`similarity_threshold = 0.45`, `boost_threshold = 0.65`. -/

/-- The `self.similarity_threshold` value (0.45). -/
def similarityThreshold : Rat := 9/20

/-- The `self.boost_threshold` value (0.65). -/
def boostThreshold : Rat := 13/20

/-- Model of `_update_finding_confidence`: copy the finding; similarity at or above
the boost threshold adds 0.15 (capped at 1.0, adjustment `boosted`); below
the similarity threshold subtracts 0.2 (floored at 0.1, adjustment
`reduced`); otherwise unchanged. `validated` is
`similarity >= similarity_threshold` in every branch. -/
def updateFindingConfidence (finding : VulnerabilityFinding) (similarity : Rat)
    (similarVuln : Option String) : VulnerabilityFinding :=
  if boostThreshold ≤ similarity then
    { finding with
      confidence := min 1 (finding.confidence + 3/20)
      validation_info := some ⟨similarity, similarVuln,
        decide (similarityThreshold ≤ similarity), "boosted"⟩ }
  else if similarity < similarityThreshold then
    { finding with
      confidence := max (1/10) (finding.confidence - 1/5)
      validation_info := some ⟨similarity, similarVuln,
        decide (similarityThreshold ≤ similarity), "reduced"⟩ }
  else
    { finding with
      validation_info := some ⟨similarity, similarVuln,
        decide (similarityThreshold ≤ similarity), "unchanged"⟩ }

/-! ## `SecurityAssessmentService._deduplicate_findings` -/

/-- Model of `re.sub(r'\s+', ' ', x)`: every maximal whitespace run becomes one
space (the flag records whether the previous character was whitespace,
i.e. whether the current run already emitted its space). -/
def collapseWsAux (prevWs : Bool) : List Char → List Char
  | [] => []
  | c :: rest =>
    if isPyWs c then
      if prevWs then collapseWsAux true rest
      else ' ' :: collapseWsAux true rest
    else c :: collapseWsAux false rest

/-- Model of `re.sub(r'\s+', ' ', x)` on a character list. -/
def collapseWs (l : List Char) : List Char := collapseWsAux false l

/-- The duplicate key of `_deduplicate_findings`:
`re.sub(r'\s+', ' ', finding.title.lower().strip())`. -/
def normalizedTitle (title : String) : String :=
  ⟨collapseWs (pyStripList (pyLower title).data)⟩

/-- The main loop of `_deduplicate_findings`: keep a finding iff its
normalized title has not been seen, first-seen order preserved. -/
def dedupSeenLoop : List VulnerabilityFinding → List String →
    List VulnerabilityFinding
  | [], _ => []
  | f :: rest, seen =>
    if normalizedTitle f.title ∈ seen then dedupSeenLoop rest seen
    else f :: dedupSeenLoop rest (normalizedTitle f.title :: seen)

/-- Model of `SecurityAssessmentService._deduplicate_findings` (lists of length at
most one are returned unchanged before the loop). -/
def deduplicateFindings (findings : List VulnerabilityFinding) :
    List VulnerabilityFinding :=
  if findings.length ≤ 1 then findings
  else dedupSeenLoop findings []

/-! ## Scoring (`_calculate_category_scores`, `_calculate_weighted_score`,
`_calculate_risk_level`) -/

/-- The `self.risk_weights` table looked up by severity string (string-valued enums
hash like their values in Python), default 0.5. -/
def riskWeight (sev : String) : Rat :=
  if sev = "CRITICAL" then 15
  else if sev = "HIGH" then 12
  else if sev = "MEDIUM" then 3
  else if sev = "LOW" then 1
  else 1/2

/-- The `self.category_weights` table (the default, comprehensive-scan weights),
default 0.0 for categories without a weight. -/
def categoryWeight (cat : String) : Rat :=
  if cat = "API_SECURITY" then 7/20
  else if cat = "PROMPT_SECURITY" then 7/20
  else if cat = "CONFIGURATION" then 3/20
  else if cat = "ERROR_HANDLING" then 3/20
  else 0

/-- The `SecurityScore` pydantic model (the `category`/`weight` keyword
arguments passed at construction are not fields and are ignored by
pydantic; score mutation happens by plain attribute assignment). -/
structure SecurityScore where
  score : Rat
  findings : List String
  recommendations : List String
deriving Repr, DecidableEq

/-- The `_calculate_category_scores` initial state: every `SecurityCategory`
member starts at 100.0, with the per-category issue counter at 0. -/
def initialCategoryState : List (String × SecurityScore × Nat) :=
  securityCategoryValues.map (fun c => (c, ⟨100, [], []⟩, 0))

/-- One finding applied to the category-score state: findings whose
category is not a key are skipped; otherwise subtract
`risk_weight * confidence * 4.0` (floored at 0) and record the title while
at most 5 are recorded. -/
def applyFindingToScores (st : List (String × SecurityScore × Nat))
    (f : VulnerabilityFinding) : List (String × SecurityScore × Nat) :=
  st.map (fun p =>
    if p.1 = f.category then
      let cnt := p.2.2 + 1
      let penalty := riskWeight f.severity * f.confidence * 4
      let newScore := max 0 (p.2.1.score - penalty)
      let newFindings :=
        if cnt ≤ 5 then p.2.1.findings ++ [f.title] else p.2.1.findings
      (p.1, ⟨newScore, newFindings, p.2.1.recommendations⟩, cnt)
    else p)

/-- Model of `SecurityAssessmentService._calculate_category_scores`. -/
def calculateCategoryScores (findings : List VulnerabilityFinding) :
    List (String × SecurityScore) :=
  (findings.foldl applyFindingToScores initialCategoryState).map
    (fun p => (p.1, p.2.1))

/-- Model of `SecurityAssessmentService._calculate_weighted_score`: 95.0 for an
empty mapping; the simple average when the weights sum to zero; otherwise
the weighted average clamped into `[0, 100]`. -/
def calculateWeightedScore (scores : List (String × SecurityScore)) : Rat :=
  if scores.isEmpty then 95
  else if (scores.map (fun p => categoryWeight p.1)).sum = 0 then
    (scores.map (fun p => p.2.score)).sum / scores.length
  else
    max 0 (min 100 ((scores.map (fun p => categoryWeight p.1 * p.2.score)).sum /
      (scores.map (fun p => categoryWeight p.1)).sum))

/-- Model of `SecurityAssessmentService._calculate_risk_level` (returns the
`RiskLevel` value as its string). -/
def calculateRiskLevel (score : Rat) : String :=
  if 85 ≤ score then "LOW"
  else if 65 ≤ score then "MEDIUM"
  else if 35 ≤ score then "HIGH"
  else "CRITICAL"

/-- The overall score as `analyze_input` computes it: weighted average of
the category scores of the finding list. -/
def overallFromFindings (findings : List VulnerabilityFinding) : Rat :=
  calculateWeightedScore (calculateCategoryScores findings)

/-! ## The env-var API-key false-positive filter (`analyze_input`) -/

/-- Model of `is_env_var_api_key_finding` from `analyze_input`: title contains
"api key" case-insensitively, and `OPENAI_API_KEY` occurs literally in a
code snippet or in the description. -/
def isEnvVarApiKeyFinding (f : VulnerabilityFinding) : Bool :=
  strContains (pyLower f.title) "api key" &&
    (f.code_snippets.any (fun s => strContains s "OPENAI_API_KEY") ||
      strContains f.description "OPENAI_API_KEY")

/-- The list comprehension
`[f for f in all_findings if not is_env_var_api_key_finding(f)]`;
its result is what `analyze_input` puts into the assessment result. -/
def filterEnvVarApiKeyFindings (findings : List VulnerabilityFinding) :
    List VulnerabilityFinding :=
  findings.filter (fun f => !isEnvVarApiKeyFinding f)

/-! ### Deduplication lemmas (claim C7 groundwork) -/

theorem dedupSeenLoop_idem (l : List VulnerabilityFinding) (seen : List String) :
    dedupSeenLoop (dedupSeenLoop l seen) seen = dedupSeenLoop l seen := by
  induction l generalizing seen with
  | nil => simp [dedupSeenLoop]
  | cons f rest ih =>
    by_cases h : normalizedTitle f.title ∈ seen
    · rw [show dedupSeenLoop (f :: rest) seen = dedupSeenLoop rest seen from by
        rw [dedupSeenLoop, if_pos h]]
      exact ih seen
    · have e1 : dedupSeenLoop (f :: rest) seen =
          f :: dedupSeenLoop rest (normalizedTitle f.title :: seen) := by
        rw [dedupSeenLoop, if_neg h]
      rw [e1, dedupSeenLoop, if_neg h, ih]

theorem dedupSeenLoop_sublist (l : List VulnerabilityFinding) (seen : List String) :
    List.Sublist (dedupSeenLoop l seen) l := by
  induction l generalizing seen with
  | nil => simp [dedupSeenLoop]
  | cons f rest ih =>
    rw [dedupSeenLoop]
    split
    · exact List.Sublist.cons f (ih seen)
    · exact List.Sublist.cons₂ f (ih _)

theorem dedupSeenLoop_not_seen (l : List VulnerabilityFinding) (seen : List String) :
    ∀ f ∈ dedupSeenLoop l seen, normalizedTitle f.title ∉ seen := by
  induction l generalizing seen with
  | nil => simp [dedupSeenLoop]
  | cons f rest ih =>
    intro g hg
    rw [dedupSeenLoop] at hg
    split at hg
    · exact ih seen g hg
    · next h =>
      rcases List.mem_cons.mp hg with h' | h'
      · rw [h']; exact h
      · have := ih _ g h'
        intro hc
        exact this (List.mem_cons_of_mem _ hc)

theorem dedupSeenLoop_keys_nodup (l : List VulnerabilityFinding) (seen : List String) :
    ((dedupSeenLoop l seen).map (fun f => normalizedTitle f.title)).Nodup := by
  induction l generalizing seen with
  | nil => simp [dedupSeenLoop]
  | cons f rest ih =>
    rw [dedupSeenLoop]
    split
    · exact ih seen
    · rw [List.map_cons, List.nodup_cons]
      refine ⟨?_, ih _⟩
      intro hc
      rcases List.mem_map.mp hc with ⟨g, hg, hkey⟩
      have := dedupSeenLoop_not_seen rest _ g hg
      exact this (by rw [hkey]; exact List.mem_cons_self _ _)

/-! ### Scoring lemmas (claim C5 groundwork) -/

theorem riskWeight_nonneg (sev : String) : 0 ≤ riskWeight sev := by
  unfold riskWeight
  repeat' split
  all_goals norm_num

/-- The per-entry invariant maintained by the category-score loop. -/
def ScoreStateWF (st : List (String × SecurityScore × Nat)) : Prop :=
  ∀ p ∈ st, 0 ≤ p.2.1.score ∧ p.2.1.score ≤ 100

theorem applyFindingToScores_wf {st : List (String × SecurityScore × Nat)}
    {f : VulnerabilityFinding} (hconf : 0 ≤ f.confidence)
    (h : ScoreStateWF st) : ScoreStateWF (applyFindingToScores st f) := by
  intro p hp
  unfold applyFindingToScores at hp
  rcases List.mem_map.mp hp with ⟨q, hq, heq⟩
  by_cases hcat : q.1 = f.category
  · rw [if_pos hcat] at heq
    subst heq
    have hpen : 0 ≤ riskWeight f.severity * f.confidence * 4 := by
      have := riskWeight_nonneg f.severity
      positivity
    constructor
    · exact le_max_left 0 _
    · have hq100 := (h q hq).2
      have : q.2.1.score - riskWeight f.severity * f.confidence * 4 ≤ 100 := by
        linarith
      exact max_le (by norm_num) this
  · rw [if_neg hcat] at heq
    subst heq
    exact h q hq

theorem foldl_scores_wf {findings : List VulnerabilityFinding}
    {st : List (String × SecurityScore × Nat)}
    (hconf : ∀ f ∈ findings, 0 ≤ f.confidence) (h : ScoreStateWF st) :
    ScoreStateWF (findings.foldl applyFindingToScores st) := by
  induction findings generalizing st with
  | nil => exact h
  | cons f rest ih =>
    exact ih (fun g hg => hconf g (List.mem_cons_of_mem _ hg))
      (applyFindingToScores_wf (hconf f (List.mem_cons_self _ _)) h)

theorem initialCategoryState_wf : ScoreStateWF initialCategoryState := by
  intro p hp
  unfold initialCategoryState at hp
  rcases List.mem_map.mp hp with ⟨c, _, heq⟩
  subst heq
  norm_num

theorem applyFindingToScores_fst (st : List (String × SecurityScore × Nat))
    (f : VulnerabilityFinding) :
    (applyFindingToScores st f).map (fun p => p.1) = st.map (fun p => p.1) := by
  unfold applyFindingToScores
  rw [List.map_map]
  apply List.map_congr_left
  intro p _
  dsimp only [Function.comp]
  split <;> rfl

theorem foldl_scores_fst (findings : List VulnerabilityFinding)
    (st : List (String × SecurityScore × Nat)) :
    (findings.foldl applyFindingToScores st).map (fun p => p.1) =
      st.map (fun p => p.1) := by
  induction findings generalizing st with
  | nil => rfl
  | cons f rest ih => rw [List.foldl_cons, ih, applyFindingToScores_fst]

theorem calculateCategoryScores_keys (findings : List VulnerabilityFinding) :
    (calculateCategoryScores findings).map (fun p => p.1) =
      securityCategoryValues := by
  unfold calculateCategoryScores
  rw [List.map_map]
  have h1 : ((findings.foldl applyFindingToScores initialCategoryState).map
      (fun p => p.1)) = initialCategoryState.map (fun p => p.1) :=
    foldl_scores_fst findings initialCategoryState
  calc ((findings.foldl applyFindingToScores initialCategoryState).map
          ((fun p : String × SecurityScore => p.1) ∘ (fun p => (p.1, p.2.1))))
      = (findings.foldl applyFindingToScores initialCategoryState).map
          (fun p => p.1) := rfl
    _ = initialCategoryState.map (fun p => p.1) := h1
    _ = securityCategoryValues := by
        unfold initialCategoryState
        rw [List.map_map]
        exact List.map_id securityCategoryValues

theorem calculateCategoryScores_wf {findings : List VulnerabilityFinding}
    (hconf : ∀ f ∈ findings, 0 ≤ f.confidence) :
    ∀ p ∈ calculateCategoryScores findings, 0 ≤ p.2.score ∧ p.2.score ≤ 100 := by
  intro p hp
  unfold calculateCategoryScores at hp
  rcases List.mem_map.mp hp with ⟨q, hq, heq⟩
  subst heq
  exact foldl_scores_wf hconf initialCategoryState_wf q hq

theorem calculateWeightedScore_bounds {scores : List (String × SecurityScore)}
    (hkeys : scores.map (fun p => p.1) = securityCategoryValues) :
    0 ≤ calculateWeightedScore scores ∧ calculateWeightedScore scores ≤ 100 := by
  have hne : scores.isEmpty = false := by
    cases scores with
    | nil => simp [securityCategoryValues] at hkeys
    | cons a l => rfl
  have htw : (scores.map (fun p => categoryWeight p.1)).sum = 1 := by
    have h1 : scores.map (fun p => categoryWeight p.1) =
        securityCategoryValues.map categoryWeight := by
      rw [← hkeys, List.map_map]; rfl
    rw [h1]
    with_unfolding_all decide
  unfold calculateWeightedScore
  rw [if_neg (by rw [hne]; exact Bool.false_ne_true), if_neg (by rw [htw]; norm_num)]
  constructor
  · exact le_max_left 0 _
  · exact max_le (by norm_num) (min_le_left _ _)

/-! ### JSON-strategy loop lemmas (claims C2, C3 and C6 groundwork) -/

/-- The `title` field a JSON candidate contributes, with the parser's
default. -/
def jsonTitle : Json → String
  | .obj flds =>
    match jsonGet flds "title" with
    | some (.str s) => s
    | _ => "Unnamed Finding"
  | _ => "Unnamed Finding"

theorem pyStrField_ok {v : Option Json} {d s : String}
    (h : pyStrField v d = .ok s) : (v = none ∧ s = d) ∨ v = some (.str s) := by
  unfold pyStrField at h
  split at h
  · rw [Except.ok.injEq] at h; exact Or.inl ⟨rfl, h.symm⟩
  · next s' => rw [Except.ok.injEq] at h; subst h; exact Or.inr rfl
  · exact Except.noConfusion h

/-- Full characterization of a successful candidate extraction. -/
theorem extractCandidateJson_spec {fd : Json} {i : Nat} {f : VulnerabilityFinding}
    (h : extractCandidateJson fd i = .ok f) :
    ∃ flds rawCat rawSev,
      fd = .obj flds ∧
      pyStrField (jsonGet flds "category") "CONFIGURATION" = .ok rawCat ∧
      pyStrField (jsonGet flds "severity") "MEDIUM" = .ok rawSev ∧
      pyFloatOfJson (jsonGet flds "confidence") = .ok f.confidence ∧
      pyStrField (jsonGet flds "title") "Unnamed Finding" = .ok f.title ∧
      f.severity = normalizeSeverity rawSev ∧
      f.category = normalizeCategory rawCat := by
  cases fd with
  | obj flds =>
    refine ⟨flds, ?_⟩
    simp only [extractCandidateJson] at h
    split at h
    · exact Except.noConfusion h
    next rawCat h1 =>
    split at h
    · exact Except.noConfusion h
    next rawSev h2 =>
    split at h
    · exact Except.noConfusion h
    next conf h3 =>
    split at h
    · exact Except.noConfusion h
    next title h4 =>
    split at h
    · exact Except.noConfusion h
    next description h5 =>
    split at h
    · exact Except.noConfusion h
    next snippet h6 =>
    split at h
    · exact Except.noConfusion h
    next recommendation h7 =>
    unfold pydanticFinding at h
    split at h
    · rw [Except.ok.injEq] at h
      subst h
      exact ⟨rawCat, rawSev, rfl, h1, h2, h3, h4, rfl, rfl⟩
    · exact Except.noConfusion h
  | null => exact Except.noConfusion h
  | bool b => exact Except.noConfusion h
  | num q => exact Except.noConfusion h
  | str s => exact Except.noConfusion h
  | arr items => exact Except.noConfusion h

theorem extractCandidateJson_title {fd : Json} {i : Nat} {f : VulnerabilityFinding}
    (h : extractCandidateJson fd i = .ok f) : f.title = jsonTitle fd := by
  obtain ⟨flds, _, _, rfl, _, _, _, htitle, _, _⟩ := extractCandidateJson_spec h
  rcases pyStrField_ok htitle with ⟨hnone, hdef⟩ | hstr
  · simp only [jsonTitle, hnone]; exact hdef
  · simp only [jsonTitle, hstr]

/-- A JSON candidate that does not supply a confidence gets exactly the
0.5 default. -/
theorem extractCandidateJson_confidence_default {flds : List (String × Json)}
    {i : Nat} {f : VulnerabilityFinding}
    (hnoconf : jsonGet flds "confidence" = none)
    (h : extractCandidateJson (.obj flds) i = .ok f) : f.confidence = 1/2 := by
  obtain ⟨flds', _, _, heq, _, _, hconf, _, _, _⟩ := extractCandidateJson_spec h
  rw [Json.obj.injEq] at heq
  subst heq
  rw [hnoconf] at hconf
  unfold pyFloatOfJson at hconf
  rw [Except.ok.injEq] at hconf
  exact hconf.symm

theorem extractAll_length {items : List Json} {i : Nat}
    {fs : List VulnerabilityFinding} (h : extractAll items i = some fs) :
    fs.length = items.length := by
  induction items generalizing i fs with
  | nil =>
    unfold extractAll at h
    rw [Option.some.injEq] at h
    subst h; rfl
  | cons fd rest ih =>
    unfold extractAll at h
    split at h
    · next f hf =>
      cases hrest : extractAll rest (i + 1) with
      | none => rw [hrest] at h; exact Option.noConfusion h
      | some fs' =>
        rw [hrest] at h
        rw [Option.map_some', Option.some.injEq] at h
        subst h
        simp [ih hrest]
    · exact Option.noConfusion h

theorem extractAll_titles {items : List Json} {i : Nat}
    {fs : List VulnerabilityFinding} (h : extractAll items i = some fs) :
    fs.map (fun f => f.title) = items.map jsonTitle := by
  induction items generalizing i fs with
  | nil =>
    unfold extractAll at h
    rw [Option.some.injEq] at h
    subst h; rfl
  | cons fd rest ih =>
    unfold extractAll at h
    split at h
    · next f hf =>
      cases hrest : extractAll rest (i + 1) with
      | none => rw [hrest] at h; exact Option.noConfusion h
      | some fs' =>
        rw [hrest] at h
        rw [Option.map_some', Option.some.injEq] at h
        subst h
        simp only [List.map_cons]
        rw [ih hrest, extractCandidateJson_title hf]
    · exact Option.noConfusion h

theorem jsonLoopCore_of_extractAll {items : List Json} {i : Nat}
    {acc fs : List VulnerabilityFinding} (h : extractAll items i = some fs) :
    jsonLoopCore items i acc = (acc ++ fs, true) := by
  induction items generalizing i acc fs with
  | nil =>
    unfold extractAll at h
    rw [Option.some.injEq] at h
    subst h
    simp [jsonLoopCore]
  | cons fd rest ih =>
    unfold extractAll at h
    split at h
    · next f hf =>
      cases hrest : extractAll rest (i + 1) with
      | none => rw [hrest] at h; exact Option.noConfusion h
      | some fs' =>
        rw [hrest] at h
        rw [Option.map_some', Option.some.injEq] at h
        subst h
        rw [jsonLoopCore, hf]
        show jsonLoopCore rest (i + 1) (acc ++ [f]) = (acc ++ f :: fs', true)
        rw [ih hrest]
        simp
    · exact Option.noConfusion h

theorem jsonLoopCore_abort {pre : List Json} {i : Nat}
    {acc fs : List VulnerabilityFinding} {bad : Json} {post : List Json}
    (hpre : extractAll pre i = some fs)
    (hbad : extractCandidateJson bad (i + pre.length) = .error ()) :
    jsonLoopCore (pre ++ bad :: post) i acc = (acc ++ fs, false) := by
  induction pre generalizing i acc fs with
  | nil =>
    unfold extractAll at hpre
    rw [Option.some.injEq] at hpre
    subst hpre
    simp only [List.length_nil, Nat.add_zero] at hbad
    rw [List.nil_append, jsonLoopCore, hbad]
    simp
  | cons p pre' ih =>
    unfold extractAll at hpre
    split at hpre
    · next f hf =>
      cases hrest : extractAll pre' (i + 1) with
      | none => rw [hrest] at hpre; exact Option.noConfusion hpre
      | some fs' =>
        rw [hrest] at hpre
        rw [Option.map_some', Option.some.injEq] at hpre
        subst hpre
        have hbad' : extractCandidateJson bad ((i + 1) + pre'.length) = .error () := by
          rw [show (i + 1) + pre'.length = i + (p :: pre').length from by
            simp [List.length_cons]; omega]
          exact hbad
        rw [List.cons_append, jsonLoopCore, hf]
        show jsonLoopCore (pre' ++ bad :: post) (i + 1) (acc ++ [f]) = (acc ++ f :: fs', false)
        rw [ih hrest hbad']
        simp
    · exact Option.noConfusion hpre

/-! ### Per-strategy confidence values and parse assembly
(claims C2, C3, C6 groundwork) -/

theorem processSection_confidence {i : Nat} {sec : String} {f : VulnerabilityFinding}
    (h : processSection i sec = some f) : f.confidence = 4/5 := by
  simp only [processSection] at h
  split at h
  · exact Option.noConfusion h
  · rw [Option.some.injEq] at h
    subst h
    rfl

theorem flushCurFinding_confidence {cf : CurFinding} {n : Nat}
    {f : VulnerabilityFinding} (h : flushCurFinding cf n = some f) :
    f.confidence = 3/5 := by
  unfold flushCurFinding at h
  split at h
  · split at h
    · exact Option.noConfusion h
    · rw [Option.some.injEq] at h
      subst h
      rfl
  · exact Option.noConfusion h

theorem fallbackLoop_mem_flush {lines : List String} {cf : CurFinding} {n : Nat} :
    ∀ f ∈ fallbackLoop lines cf n, ∃ cf' n', flushCurFinding cf' n' = some f := by
  induction lines generalizing cf n with
  | nil =>
    intro f hf
    unfold fallbackLoop at hf
    cases hflush : flushCurFinding cf n with
    | none => rw [hflush] at hf; simp at hf
    | some g =>
      rw [hflush] at hf
      simp only [Option.toList_some, List.mem_singleton] at hf
      subst hf
      exact ⟨cf, n, hflush⟩
  | cons line0 rest ih =>
    intro f hf
    simp only [fallbackLoop] at hf
    split at hf
    · exact ih f hf
    · split at hf
      · split at hf
        · next g hg =>
          rcases List.mem_cons.mp hf with h' | h'
          · subst h'; exact ⟨_, _, hg⟩
          · exact ih f h'
        · exact ih f hf
      · split at hf
        · exact ih f hf
        · split at hf
          · exact ih f hf
          · split at hf
            · exact ih f hf
            · split at hf
              · exact ih f hf
              · split at hf
                · exact ih f hf
                · exact ih f hf

theorem parseFindings_eq_of_early {t : String} {fs : List VulnerabilityFinding}
    (hnf : noFindingsIndicated t = false) (hmain : parseMain t = (fs, true)) :
    parseFindings t = fs := by
  simp only [parseFindings, hnf, Bool.false_eq_true, if_false, hmain, if_true]

theorem parseFindings_eq_of_abort {t : String} {fs : List VulnerabilityFinding}
    (hnf : noFindingsIndicated t = false) (hmain : parseMain t = (fs, false))
    (hfb1 : strContains (pyLower t) "vulnerability" = false)
    (hfb2 : strContains (pyLower t) "security issue" = false) :
    parseFindings t = fs := by
  simp only [parseFindings, hnf, Bool.false_eq_true, if_false, hmain]
  unfold fallbackScan
  rw [hfb1, hfb2]
  simp

/-! ## The claims -/

/-- C1: for every raw text input string, `_parse_findings` returns a
finite sequence without raising an exception (`parseFindings` is a total
function: every exception the source can raise is caught inside it), and
every returned finding has confidence in `[0, 1]` and severity and
category equal to one of the closed enum values — never raw LLM text. -/
theorem claim_C1_parse_safety (t : String) (f : VulnerabilityFinding)
    (hf : f ∈ parseFindings t) :
    0 ≤ f.confidence ∧ f.confidence ≤ 1 ∧
      f.severity ∈ riskLevelValues ∧ f.category ∈ securityCategoryValues :=
  parseFindings_wf f hf

/-- Witness for C1 at a concrete raw text. -/
theorem claim_C1_parse_safety_witness :
    (⟨"finding_1", "A", "No description provided", "MEDIUM", "CONFIGURATION",
      ["No code snippet provided"], "No recommendation provided", 1/2, none⟩ :
        VulnerabilityFinding) ∈ parseFindings "[\x7b\"title\": \"A\"\x7d]" ∧
    (0 ≤ ((1:Rat)/2) ∧ ((1:Rat)/2) ≤ 1 ∧ "MEDIUM" ∈ riskLevelValues ∧
      "CONFIGURATION" ∈ securityCategoryValues) := by
  have hm : (⟨"finding_1", "A", "No description provided", "MEDIUM", "CONFIGURATION",
      ["No code snippet provided"], "No recommendation provided", 1/2, none⟩ :
        VulnerabilityFinding) ∈ parseFindings "[\x7b\"title\": \"A\"\x7d]" := by
    with_unfolding_all decide
  exact ⟨hm, claim_C1_parse_safety _ _ hm⟩

/-- C2 counterexample: a JSON candidate that supplies no confidence, with
a description longer than 100 characters and a recommendation longer than
50 characters, receives confidence 0.5 — not the 0.8 + 0.05 + 0.05 = 0.9
the claimed heuristic would assign. No such heuristic exists in the
code. -/
theorem claim_C2_counterexample :
    (parseFindings "[\x7b\"title\": \"T\", \"description\": \"aaaaaaaaaaaaaaaaaaaaaaaaaaaaaaaaaaaaaaaaaaaaaaaaaaaaaaaaaaaaaaaaaaaaaaaaaaaaaaaaaaaaaaaaaaaaaaaaaaaaaaaa\", \"recommendation\": \"bbbbbbbbbbbbbbbbbbbbbbbbbbbbbbbbbbbbbbbbbbbbbbbbbbbbbbbb\"\x7d]").map
        (fun f => (f.description.length, f.recommendation.length, f.confidence)) =
      [(104, 56, 1/2)] ∧ ((1:Rat)/2 ≠ 4/5 + 1/20 + 1/20) := by
  constructor
  · with_unfolding_all decide
  · with_unfolding_all decide

/-- C2 amended: the parser's actual confidence assignment is a fixed
constant per strategy — 0.5 for JSON candidates without a confidence
field, 0.8 for every numbered-list candidate, 0.6 for every line-scan
candidate — with no length-based adjustment. -/
theorem claim_C2_fixed_confidence :
    (∀ (flds : List (String × Json)) (i : Nat) (f : VulnerabilityFinding),
      jsonGet flds "confidence" = none →
      extractCandidateJson (.obj flds) i = .ok f → f.confidence = 1/2) ∧
    (∀ (i : Nat) (sec : String) (f : VulnerabilityFinding),
      processSection i sec = some f → f.confidence = 4/5) ∧
    (∀ (lines : List String) (cf : CurFinding) (n : Nat) (f : VulnerabilityFinding),
      f ∈ fallbackLoop lines cf n → f.confidence = 3/5) := by
  refine ⟨?_, ?_, ?_⟩
  · intro flds i f hnone h
    exact extractCandidateJson_confidence_default hnone h
  · intro i sec f h
    exact processSection_confidence h
  · intro lines cf n f hf
    obtain ⟨cf', n', h⟩ := fallbackLoop_mem_flush f hf
    exact flushCurFinding_confidence h

/-- Witness for the amended C2 at a concrete candidate. -/
theorem claim_C2_fixed_confidence_witness :
    extractCandidateJson (Json.obj [("title", Json.str "T")]) 0 =
      .ok ⟨"finding_1", "T", "No description provided", "MEDIUM", "CONFIGURATION",
        ["No code snippet provided"], "No recommendation provided", 1/2, none⟩ ∧
    (⟨"finding_1", "T", "No description provided", "MEDIUM", "CONFIGURATION",
        ["No code snippet provided"], "No recommendation provided", 1/2, none⟩ :
      VulnerabilityFinding).confidence = 1/2 := by
  have he : extractCandidateJson (Json.obj [("title", Json.str "T")]) 0 =
      .ok ⟨"finding_1", "T", "No description provided", "MEDIUM", "CONFIGURATION",
        ["No code snippet provided"], "No recommendation provided", 1/2, none⟩ := by
    with_unfolding_all rfl
  exact ⟨he, claim_C2_fixed_confidence.1 [("title", Json.str "T")] 0 _ (by rfl) he⟩

/-- C3 counterexample: in a three-element JSON array whose second
candidate has a malformed confidence, the third candidate — extractable
in isolation — does not appear in the result: only the candidate before
the failure survives. -/
theorem claim_C3_counterexample :
    (parseFindings "[\x7b\"title\": \"A\"\x7d, \x7b\"title\": \"B\", \"confidence\": \"x\"\x7d, \x7b\"title\": \"C\"\x7d]").map (fun f => f.title) = ["A"] ∧
    (∃ f, extractCandidateJson (Json.obj [("title", Json.str "C")]) 2 = .ok f) := by
  constructor
  · with_unfolding_all decide
  · exact ⟨⟨"finding_3", "C", "No description provided", "MEDIUM", "CONFIGURATION",
      ["No code snippet provided"], "No recommendation provided", 1/2, none⟩,
      by with_unfolding_all rfl⟩

/-- C3 amended: a failing candidate aborts the JSON loop — the candidates
extracted before it are returned (the caught exception falls through to
the line-scan fallback, which contributes nothing when its gate words are
absent), while the failing candidate and every later candidate of the
same array are dropped. -/
theorem claim_C3_abort_behavior (t : String) (pre post : List Json) (bad : Json)
    (fs : List VulnerabilityFinding)
    (hnf : noFindingsIndicated t = false)
    (hjson : jsonLoads t = some (.arr (pre ++ bad :: post)))
    (hpre : extractAll pre 0 = some fs)
    (hbad : extractCandidateJson bad pre.length = .error ())
    (hfb1 : strContains (pyLower t) "vulnerability" = false)
    (hfb2 : strContains (pyLower t) "security issue" = false) :
    parseFindings t = fs := by
  have hmain : parseMain t = (fs, false) := by
    unfold parseMain
    rw [hjson]
    show jsonLoop (pre ++ bad :: post) = (fs, false)
    unfold jsonLoop
    have hbad0 : extractCandidateJson bad (0 + pre.length) = .error () := by
      rw [Nat.zero_add]; exact hbad
    have habort : jsonLoopCore (pre ++ bad :: post) 0 [] = ([] ++ fs, false) :=
      jsonLoopCore_abort hpre hbad0
    simpa using habort
  exact parseFindings_eq_of_abort hnf hmain hfb1 hfb2

/-- Witness for the amended C3 at the three-element array. -/
theorem claim_C3_abort_behavior_witness :
    parseFindings "[\x7b\"title\": \"A\"\x7d, \x7b\"title\": \"B\", \"confidence\": \"x\"\x7d, \x7b\"title\": \"C\"\x7d]" =
      [⟨"finding_1", "A", "No description provided", "MEDIUM", "CONFIGURATION",
        ["No code snippet provided"], "No recommendation provided", 1/2, none⟩] :=
  claim_C3_abort_behavior _
    [Json.obj [("title", Json.str "A")]]
    [Json.obj [("title", Json.str "C")]]
    (Json.obj [("title", Json.str "B"), ("confidence", Json.str "x")])
    _ (by rfl) (by rfl) (by with_unfolding_all rfl)
    (by with_unfolding_all rfl) (by rfl) (by rfl)

/-- C4 counterexample: a finding with confidence 0.05 and similarity 0.2
(below the similarity threshold) comes back with confidence 0.1 — the
reduction floor raises it above the input, so "output ≤ input" fails. -/
theorem claim_C4_counterexample :
    ¬((updateFindingConfidence
        ⟨"finding_1", "Weak signal", "d", "LOW", "API_SECURITY", [], "r",
          1/20, none⟩ (1/5) none).confidence ≤ (1:Rat)/20) := by
  with_unfolding_all decide

/-- C4 amended: for confidence within the pydantic range, a similarity at
or above the boost threshold never lowers the confidence; a similarity
below the similarity threshold never raises it above `max(0.1, input)`,
and never raises it at all once the input is at least the 0.1 floor. -/
theorem claim_C4_validation_monotonic (f : VulnerabilityFinding) (sim : Rat)
    (v : Option String) :
    (f.confidence ≤ 1 → boostThreshold ≤ sim →
      f.confidence ≤ (updateFindingConfidence f sim v).confidence) ∧
    (1/10 ≤ f.confidence → sim < similarityThreshold →
      (updateFindingConfidence f sim v).confidence ≤ f.confidence) ∧
    (sim < similarityThreshold →
      (updateFindingConfidence f sim v).confidence ≤ max (1/10) f.confidence) := by
  have eb : boostThreshold = 13/20 := rfl
  have es : similarityThreshold = 9/20 := rfl
  refine ⟨?_, ?_, ?_⟩
  · intro h1 hb
    unfold updateFindingConfidence
    rw [if_pos hb]
    show f.confidence ≤ min 1 (f.confidence + 3/20)
    exact le_min h1 (by linarith)
  · intro h1 hs
    unfold updateFindingConfidence
    rw [if_neg (by rw [eb]; rw [es] at hs; intro hc; linarith), if_pos hs]
    show max (1/10) (f.confidence - 1/5) ≤ f.confidence
    exact max_le h1 (by linarith)
  · intro hs
    unfold updateFindingConfidence
    rw [if_neg (by rw [eb]; rw [es] at hs; intro hc; linarith), if_pos hs]
    show max (1/10) (f.confidence - 1/5) ≤ max (1/10) f.confidence
    exact max_le (le_max_left _ _)
      (le_trans (by linarith) (le_max_right (1/10) f.confidence))

/-- Witness for the amended C4: a boost at confidence 0.9 and a
reduction at confidence 0.5. -/
theorem claim_C4_validation_monotonic_witness :
    ((⟨"f1", "t", "d", "HIGH", "API_SECURITY", [], "r", 9/10, none⟩ :
        VulnerabilityFinding).confidence ≤
      (updateFindingConfidence
        ⟨"f1", "t", "d", "HIGH", "API_SECURITY", [], "r", 9/10, none⟩
        (7/10) none).confidence) ∧
    ((updateFindingConfidence
        ⟨"f2", "t", "d", "LOW", "API_SECURITY", [], "r", 1/2, none⟩
        (1/5) none).confidence ≤
      (⟨"f2", "t", "d", "LOW", "API_SECURITY", [], "r", 1/2, none⟩ :
        VulnerabilityFinding).confidence) :=
  ⟨(claim_C4_validation_monotonic _ (7/10) none).1
      (by with_unfolding_all decide) (by with_unfolding_all decide),
   (claim_C4_validation_monotonic _ (1/5) none).2.1
      (by with_unfolding_all decide) (by with_unfolding_all decide)⟩

/-- C5: for every finding list (whose confidences satisfy the pydantic
lower bound that every `VulnerabilityFinding` instance carries), every
per-category score and the overall score lie in `[0, 100]`; the empty
finding list yields an overall score of at least 90 (it computes to
exactly 100) and risk level LOW. -/
theorem claim_C5_scoring_bounds (findings : List VulnerabilityFinding)
    (hconf : ∀ f ∈ findings, 0 ≤ f.confidence) :
    (∀ p ∈ calculateCategoryScores findings, 0 ≤ p.2.score ∧ p.2.score ≤ 100) ∧
    (0 ≤ overallFromFindings findings ∧ overallFromFindings findings ≤ 100) ∧
    (findings = [] →
      90 ≤ overallFromFindings findings ∧
      calculateRiskLevel (overallFromFindings findings) = "LOW") := by
  refine ⟨calculateCategoryScores_wf hconf, ?_, ?_⟩
  · exact calculateWeightedScore_bounds (calculateCategoryScores_keys findings)
  · rintro rfl
    have e100 : overallFromFindings [] = 100 := by with_unfolding_all decide
    constructor
    · rw [e100]; norm_num
    · rw [e100]; with_unfolding_all decide

/-- Witness for C5 at the empty finding list. -/
theorem claim_C5_scoring_bounds_witness :
    90 ≤ overallFromFindings [] ∧
    calculateRiskLevel (overallFromFindings []) = "LOW" :=
  (claim_C5_scoring_bounds [] (by simp)).2.2 rfl

/-- C6 counterexample: a well-formed one-element JSON array whose title
phrase matches a "no findings" pattern parses to the empty list, so the
count round-trip fails. -/
theorem claim_C6_counterexample :
    jsonLoads "[\x7b\"title\": \"no issues found\"\x7d]" =
      some (Json.arr [Json.obj [("title", Json.str "no issues found")]]) ∧
    parseFindings "[\x7b\"title\": \"no issues found\"\x7d]" = [] := by
  constructor
  · rfl
  · with_unfolding_all decide

/-- C6 amended: when the raw text matches none of the no-findings
patterns and every array element extracts successfully, `parse` returns
exactly one candidate per element, in order, with matching titles
(`"Unnamed Finding"` standing in for an absent title field). -/
theorem claim_C6_roundtrip (t : String) (items : List Json)
    (fs : List VulnerabilityFinding)
    (hnf : noFindingsIndicated t = false)
    (hjson : jsonLoads t = some (.arr items))
    (hall : extractAll items 0 = some fs) :
    parseFindings t = fs ∧ fs.length = items.length ∧
      fs.map (fun f => f.title) = items.map jsonTitle := by
  have hmain : parseMain t = (fs, true) := by
    unfold parseMain
    rw [hjson]
    show jsonLoop items = (fs, true)
    unfold jsonLoop
    have hrun : jsonLoopCore items 0 [] = ([] ++ fs, true) :=
      jsonLoopCore_of_extractAll hall
    simpa using hrun
  exact ⟨parseFindings_eq_of_early hnf hmain, extractAll_length hall,
    extractAll_titles hall⟩

/-- Witness for the amended C6 at a two-element array. -/
theorem claim_C6_roundtrip_witness :
    parseFindings "[\x7b\"title\": \"First\"\x7d, \x7b\"title\": \"Second\"\x7d]" =
      [⟨"finding_1", "First", "No description provided", "MEDIUM", "CONFIGURATION",
        ["No code snippet provided"], "No recommendation provided", 1/2, none⟩,
       ⟨"finding_2", "Second", "No description provided", "MEDIUM", "CONFIGURATION",
        ["No code snippet provided"], "No recommendation provided", 1/2, none⟩] :=
  (claim_C6_roundtrip _
    [Json.obj [("title", Json.str "First")], Json.obj [("title", Json.str "Second")]]
    _ (by rfl) (by rfl) (by with_unfolding_all rfl)).1

/-- C7: deduplication is idempotent; moreover its output is a sublist of
its input (first-seen order preserved) and the case-folded,
whitespace-collapsed title keys of the output are pairwise distinct (only
the first occurrence of a key is kept). -/
theorem claim_C7_dedup_idempotent (X : List VulnerabilityFinding) :
    deduplicateFindings (deduplicateFindings X) = deduplicateFindings X ∧
    List.Sublist (deduplicateFindings X) X ∧
    ((deduplicateFindings X).map (fun f => normalizedTitle f.title)).Nodup := by
  by_cases h : X.length ≤ 1
  · have e : deduplicateFindings X = X := by
      unfold deduplicateFindings; rw [if_pos h]
    refine ⟨by rw [e, e], by rw [e], ?_⟩
    rw [e]
    cases X with
    | nil => simp
    | cons f rest =>
      cases rest with
      | nil => simp
      | cons g r =>
        exfalso
        simp only [List.length_cons] at h
        omega
  · have e : deduplicateFindings X = dedupSeenLoop X [] := by
      unfold deduplicateFindings; rw [if_neg h]
    refine ⟨?_, by rw [e]; exact dedupSeenLoop_sublist X [],
      by rw [e]; exact dedupSeenLoop_keys_nodup X []⟩
    rw [e]
    unfold deduplicateFindings
    split
    · rfl
    · exact dedupSeenLoop_idem X []

/-- C8: both normalizers are total into their closed enums, and a
severity string containing none of the seven keywords (case-insensitively)
maps to the default MEDIUM. -/
theorem claim_C8_normalizers_total (s : String) :
    normalizeCategory s ∈ securityCategoryValues ∧
    normalizeSeverity s ∈ riskLevelValues ∧
    ((∀ k ∈ severityKeywords, strContains (pyLower s) k = false) →
      normalizeSeverity s = "MEDIUM") :=
  ⟨normalizeCategory_mem_enum s, normalizeSeverity_mem s,
    normalizeSeverity_default s⟩

/-- Witness for C8 at an unrecognized garbage string. -/
theorem claim_C8_normalizers_total_witness :
    (∀ k ∈ severityKeywords, strContains (pyLower "!!nonsense!!") k = false) ∧
    normalizeSeverity "!!nonsense!!" = "MEDIUM" :=
  ⟨by decide, (claim_C8_normalizers_total "!!nonsense!!").2.2 (by decide)⟩

/-- C9: a string that is not one of the four canonical category names and
contains no synonym-table key maps to API_SECURITY, never to
GENERAL_SECURITY. -/
theorem claim_C9_category_default (s : String)
    (h1 : s ∉ canonicalCategories)
    (h2 : ∀ kv ∈ categoryMap, strContains (pyLower s) kv.1 = false) :
    normalizeCategory s = "API_SECURITY" ∧
    normalizeCategory s ≠ "GENERAL_SECURITY" := by
  have e := normalizeCategory_default s h2
  exact ⟨e, by rw [e]; decide⟩

/-- Witness for C9 at a concrete unmatched category string. -/
theorem claim_C9_category_default_witness :
    normalizeCategory "data leakage" = "API_SECURITY" :=
  (claim_C9_category_default "data leakage" (by decide) (by decide)).1

/-- C10: the orchestrator's false-positive filter removes every finding
whose title contains "api key" case-insensitively and whose description
or some code snippet contains the literal `OPENAI_API_KEY` — regardless
of any other attribute — and keeps exactly the findings that do not match
that shape. -/
theorem claim_C10_env_var_filter (findings : List VulnerabilityFinding)
    (f : VulnerabilityFinding) :
    (isEnvVarApiKeyFinding f = true → f ∉ filterEnvVarApiKeyFindings findings) ∧
    (f ∈ filterEnvVarApiKeyFindings findings ↔
      f ∈ findings ∧ isEnvVarApiKeyFinding f = false) := by
  constructor
  · intro hpred hc
    unfold filterEnvVarApiKeyFindings at hc
    rw [List.mem_filter] at hc
    have := hc.2
    rw [hpred] at this
    simp at this
  · unfold filterEnvVarApiKeyFindings
    rw [List.mem_filter]
    simp [Bool.not_eq_true']

/-- Witness for C10: a maximal-confidence finding whose description cites
`OPENAI_API_KEY` is removed. -/
theorem claim_C10_env_var_filter_witness :
    isEnvVarApiKeyFinding
      ⟨"api_key_env", "Hardcoded OpenAI API Key",
        "The code references OPENAI_API_KEY.", "HIGH", "API_SECURITY",
        [], "Use a key vault.", 1, none⟩ = true ∧
    (⟨"api_key_env", "Hardcoded OpenAI API Key",
        "The code references OPENAI_API_KEY.", "HIGH", "API_SECURITY",
        [], "Use a key vault.", 1, none⟩ : VulnerabilityFinding) ∉
      filterEnvVarApiKeyFindings
        [⟨"api_key_env", "Hardcoded OpenAI API Key",
          "The code references OPENAI_API_KEY.", "HIGH", "API_SECURITY",
          [], "Use a key vault.", 1, none⟩] := by
  have hp : isEnvVarApiKeyFinding
      ⟨"api_key_env", "Hardcoded OpenAI API Key",
        "The code references OPENAI_API_KEY.", "HIGH", "API_SECURITY",
        [], "Use a key vault.", 1, none⟩ = true := by decide
  exact ⟨hp, (claim_C10_env_var_filter _ _).1 hp⟩

end Parseon
